import Mathlib

/-!
Verification development for the tabular Q-learning engine of the
Raylib-RL-Simulation repository (src/agent.c, src/q_table_optimized.c,
include/q_table_optimized.h).

The C code is shallowly embedded: C `float` values are modelled as exact
rationals (`ℚ`), C `int` parameters as `ℤ` where sign checks matter, heap
arrays as Lean lists, and the transcendental `powf` either as an abstract
function parameter (where only its shape matters) or as `Real.rpow` (where
its analytic properties matter).  Unchecked pointer arithmetic is modelled
with `Option`: `none` marks an access the C program performs outside its
allocation (undefined behaviour).
-/

namespace RLSim

/-! ## Generic scalar reductions

`scanMax f n` models the C idiom
`max = f(0); for (i = 1; i < n; i++) if (f(i) > max) max = f(i);`
used by `update_q_value`, `get_max_q_value_cached` and the max-priority
rescan in `add_priority_experience`.  `scanArgmax` models the same loop
additionally tracking the index of the running maximum (ties keep the
earlier, i.e. lowest, index), as in `select_greedy_action`,
`get_best_action_cached` and `simd_argmax_in_row`. -/

def scanStep (f : ℕ → ℚ) (m : ℚ) (i : ℕ) : ℚ :=
  if f i > m then f i else m

def scanMax (f : ℕ → ℚ) (n : ℕ) : ℚ :=
  (List.range' 1 (n - 1)).foldl (scanStep f) (f 0)

def argmaxStep (f : ℕ → ℚ) (p : ℕ × ℚ) (i : ℕ) : ℕ × ℚ :=
  if f i > p.2 then (i, f i) else p

def scanArgmax (f : ℕ → ℚ) (n : ℕ) : ℕ × ℚ :=
  (List.range' 1 (n - 1)).foldl (argmaxStep f) (0, f 0)

/-! ## The plain Q-learning agent (src/agent.c)

`QLearningAgent` mirrors the C struct of the same name.  The row-pointer
array `float** q_table` is a list of rows; a well-formed agent (as produced
by `create_agent`) has `num_states` rows of `num_actions` zero-initialised
entries each. -/

structure QLearningAgent where
  num_states : ℕ
  num_actions : ℕ
  learning_rate : ℚ
  discount_factor : ℚ
  epsilon : ℚ
  epsilon_decay : ℚ
  epsilon_min : ℚ
  current_state : ℤ
  last_action : ℕ
  q_table : List (List ℚ)
  deriving Repr, DecidableEq

/-- Shape invariant established by `create_agent`: `num_states` rows of
`num_actions` entries each. -/
def AgentWF (a : QLearningAgent) : Prop :=
  a.q_table.length = a.num_states ∧ ∀ row ∈ a.q_table, row.length = a.num_actions

instance (a : QLearningAgent) : Decidable (AgentWF a) := by
  unfold AgentWF; infer_instance

/-- Entry `q_table[state][action]` (both indices already known in range). -/
def qEntry (a : QLearningAgent) (s act : ℕ) : ℚ :=
  (a.q_table.getD s []).getD act 0

/-- Bounds guard shared by `update_q_value`, `get_q_value`, `set_q_value`:
true when the state/action pair is out of range.  The `!agent` null check of
the C code is not modelled (all modelled agents are non-null). -/
def oobSA (a : QLearningAgent) (state action : ℤ) : Prop :=
  state < 0 ∨ (a.num_states : ℤ) ≤ state ∨ action < 0 ∨ (a.num_actions : ℤ) ≤ action

instance (a : QLearningAgent) (s act : ℤ) : Decidable (oobSA a s act) := by
  unfold oobSA; infer_instance

/-- Embeds `update_q_value` (src/agent.c lines 106-133): guarded Bellman
update `Q(s,a) += lr * (reward + (done ? 0 : gamma * max_a Q(s',a)) - Q(s,a))`,
also recording `last_action`. -/
def update_q_value (agent : QLearningAgent) (state action : ℤ) (reward : ℚ)
    (next_state : ℤ) (done : Bool) : QLearningAgent :=
  if state < 0 ∨ (agent.num_states : ℤ) ≤ state ∨
     next_state < 0 ∨ (agent.num_states : ℤ) ≤ next_state ∨
     action < 0 ∨ (agent.num_actions : ℤ) ≤ action then agent
  else
    let s := state.toNat
    let a := action.toNat
    let ns := next_state.toNat
    let current_q := qEntry agent s a
    let max_next_q : ℚ :=
      if done then 0 else scanMax (fun i => qEntry agent ns i) agent.num_actions
    let td_target := reward + agent.discount_factor * max_next_q
    let td_error := td_target - current_q
    { agent with
      q_table := agent.q_table.set s
        ((agent.q_table.getD s []).set a (current_q + agent.learning_rate * td_error))
      last_action := a }

/-- Embeds `get_q_value` (src/agent.c lines 146-152): out-of-range indices
yield `0.0`. -/
def get_q_value (agent : QLearningAgent) (state action : ℤ) : ℚ :=
  if oobSA agent state action then 0
  else qEntry agent state.toNat action.toNat

/-- Embeds `set_q_value` (src/agent.c lines 155-161): out-of-range indices
are a no-op. -/
def set_q_value (agent : QLearningAgent) (state action : ℤ) (value : ℚ) :
    QLearningAgent :=
  if oobSA agent state action then agent
  else { agent with
    q_table := agent.q_table.set state.toNat
      ((agent.q_table.getD state.toNat []).set action.toNat value) }

/-- Embeds `select_greedy_action` (src/agent.c lines 86-103).  A null agent
(modelled as `none`) or out-of-range state returns `ACTION_UP = 0`; otherwise
the scalar argmax loop over row `state` (lowest index wins ties). -/
def select_greedy_action (agent : Option QLearningAgent) (state : ℤ) : ℕ :=
  match agent with
  | none => 0
  | some a =>
    if state < 0 ∨ (a.num_states : ℤ) ≤ state then 0
    else (scanArgmax (fun i => qEntry a state.toNat i) a.num_actions).1

/-- Embeds `select_action` (src/agent.c lines 66-83).  The two `rand()` draws
are passed in explicitly: `randv` models `(float)rand() / RAND_MAX` and
`randn` the raw draw reduced by `% num_actions`.  The write to
`agent->current_state` does not influence the returned action and is not
modelled. -/
def select_action (agent : Option QLearningAgent) (state : ℤ) (randv : ℚ)
    (randn : ℕ) : ℕ :=
  match agent with
  | none => 0
  | some a =>
    if state < 0 ∨ (a.num_states : ℤ) ≤ state then 0
    else if randv < a.epsilon then randn % a.num_actions
    else select_greedy_action (some a) state

/-! ## Q-table persistence (src/agent.c lines 589-629)

A Q-table file is modelled by its parsed contents: the header written by
`save_q_table` followed by the row-major table data. -/

structure QTableFile where
  num_states : ℕ
  num_actions : ℕ
  learning_rate : ℚ
  discount_factor : ℚ
  epsilon : ℚ
  epsilon_decay : ℚ
  epsilon_min : ℚ
  table : List (List ℚ)
  deriving Repr, DecidableEq

/-- Embeds `load_q_table`: the header dimensions are read first and compared
with the live agent; on mismatch the function returns `false` having touched
nothing, otherwise it overwrites the agent parameters and the whole table and
returns `true`.  File-open failure (also `false`, nothing touched) is the
`none` case of the file argument's caller and is not needed here. -/
def load_q_table (agent : QLearningAgent) (file : QTableFile) :
    Bool × QLearningAgent :=
  if file.num_states ≠ agent.num_states ∨ file.num_actions ≠ agent.num_actions then
    (false, agent)
  else
    (true,
     { agent with
       learning_rate := file.learning_rate
       discount_factor := file.discount_factor
       epsilon := file.epsilon
       epsilon_decay := file.epsilon_decay
       epsilon_min := file.epsilon_min
       q_table := file.table })

/-! ## The cache-optimized Q-table (src/q_table_optimized.c, include/q_table_optimized.h)

`OptimizedQTable` mirrors the C struct: a flat row-major `data` array with
`state_stride = num_actions`, and (when created with
`hints.frequent_max_queries`) the per-state reduction caches
`max_q_cache` / `best_action_cache` guarded by the shared `cache_valid`
flags.  `has_cache` models the non-nullness of the cache pointers.  The
row-pointer cache, last-state hot path, and SIMD fields are pure access
optimisations: both the SIMD and the scalar reduction compute the maximum of
exactly the same row elements (`simd_argmax_in_row` is literally the scalar
loop), so the reductions are modelled once by `scanMax` / `scanArgmax`. -/

structure OptimizedQTable where
  data : List ℚ
  num_states : ℕ
  num_actions : ℕ
  state_stride : ℕ
  max_q_cache : List ℚ
  best_action_cache : List ℕ
  cache_valid : List Bool
  has_cache : Bool
  deriving Repr, DecidableEq

/-- Performance counters (`QTablePerfCounters`, thread-local
`g_perf_counters` in the C file), modelled as explicit state. -/
structure QTablePerfCounters where
  cache_hits : ℕ
  cache_misses : ℕ
  total_accesses : ℕ
  batch_operations : ℕ
  simd_operations : ℕ
  deriving Repr, DecidableEq

/-- Zero-initialised counters (`static __thread ... = {0}`). -/
def zeroCounters : QTablePerfCounters :=
  { cache_hits := 0, cache_misses := 0, total_accesses := 0
    batch_operations := 0, simd_operations := 0 }

/-- Successful-allocation body of `create_optimized_qtable`: zeroed data, and
if `frequent_max_queries` is set, cache arrays of length `num_states` with
`cache_valid` zeroed by `calloc`.  `max_q_cache` and `best_action_cache` come
from plain `malloc` and are uninitialised in C; they are modelled as zeroed,
which no modelled run reads before writing while `cache_valid` is false. -/
def mkOptimizedQTable (num_states num_actions : ℕ) (frequent_max_queries : Bool) :
    OptimizedQTable :=
  { data := List.replicate (num_states * num_actions) 0
    num_states := num_states
    num_actions := num_actions
    state_stride := num_actions
    max_q_cache := if frequent_max_queries then List.replicate num_states 0 else []
    best_action_cache := if frequent_max_queries then List.replicate num_states 0 else []
    cache_valid := if frequent_max_queries then List.replicate num_states false else []
    has_cache := frequent_max_queries }

/-- Embeds `create_optimized_qtable` (src/q_table_optimized.c lines 30-117):
non-positive dimensions are rejected with a null return.  Allocation failures
(the only other null paths) are not modelled. -/
def create_optimized_qtable (num_states num_actions : ℤ)
    (frequent_max_queries : Bool) : Option OptimizedQTable :=
  if num_states ≤ 0 ∨ num_actions ≤ 0 then none
  else some (mkOptimizedQTable num_states.toNat num_actions.toNat frequent_max_queries)

/-- Row `state` of the flat data array as a function of the action index,
as returned by `get_state_row_fast` (both the row-pointer-cache path and the
multiply path address the same `data + state * state_stride` slice). -/
def rowOf (t : OptimizedQTable) (s : ℕ) : ℕ → ℚ :=
  fun a => t.data.getD (s * t.state_stride + a) 0

/-- Embeds `get_q_value_fast` (include/q_table_optimized.h lines 72-74):
unchecked flat indexing `data[state * state_stride + action]`.  `none` marks
an access outside the allocated array (undefined behaviour in C); note that
an out-of-range `(state, action)` pair whose flat index happens to fall
inside the array silently reads another row's entry. -/
def get_q_value_fast (t : OptimizedQTable) (state action : ℤ) : Option ℚ :=
  let idx := state * (t.state_stride : ℤ) + action
  if 0 ≤ idx ∧ idx < (t.data.length : ℤ) then some (t.data.getD idx.toNat 0)
  else none

/-- Embeds `set_q_value_fast` (include/q_table_optimized.h lines 76-82):
unchecked write to `data[state * state_stride + action]` followed, when the
cache exists, by `cache_valid[state] = false`.  `none` marks either write
landing outside its array. -/
def set_q_value_fast (t : OptimizedQTable) (state action : ℤ) (value : ℚ) :
    Option OptimizedQTable :=
  let idx := state * (t.state_stride : ℤ) + action
  if 0 ≤ idx ∧ idx < (t.data.length : ℤ) then
    let t' := { t with data := t.data.set idx.toNat value }
    if t.has_cache then
      if 0 ≤ state ∧ state < (t.cache_valid.length : ℤ) then
        some { t' with cache_valid := t'.cache_valid.set state.toNat false }
      else none
    else some t'
  else none

/-- Embeds `get_max_q_value_cached` (src/q_table_optimized.c lines 138-176).
Null/out-of-range guard returns `0.0` before any counter is touched; a valid
cache entry is a hit; otherwise the row maximum is recomputed (SIMD and
scalar paths agree, see `scanMax`) and, when the cache exists, stored with
`cache_valid[state] = true`.  Note the miss path updates only `max_q_cache`,
never `best_action_cache`. -/
def get_max_q_value_cached (t : OptimizedQTable) (c : QTablePerfCounters)
    (state : ℤ) : ℚ × OptimizedQTable × QTablePerfCounters :=
  if state < 0 ∨ (t.num_states : ℤ) ≤ state then (0, t, c)
  else
    let s := state.toNat
    let c := { c with total_accesses := c.total_accesses + 1 }
    if t.has_cache ∧ t.cache_valid.getD s false then
      (t.max_q_cache.getD s 0, t, { c with cache_hits := c.cache_hits + 1 })
    else
      let c := { c with cache_misses := c.cache_misses + 1 }
      let max_q := scanMax (rowOf t s) t.num_actions
      if t.has_cache then
        (max_q,
         { t with max_q_cache := t.max_q_cache.set s max_q
                  cache_valid := t.cache_valid.set s true },
         c)
      else (max_q, t, c)

/-- Embeds `get_best_action_cached` (src/q_table_optimized.c lines 179-221).
The miss path recomputes the row argmax (lowest index wins ties) and stores
best action, maximum and validity together. -/
def get_best_action_cached (t : OptimizedQTable) (c : QTablePerfCounters)
    (state : ℤ) : ℕ × OptimizedQTable × QTablePerfCounters :=
  if state < 0 ∨ (t.num_states : ℤ) ≤ state then (0, t, c)
  else
    let s := state.toNat
    let c := { c with total_accesses := c.total_accesses + 1 }
    if t.has_cache ∧ t.cache_valid.getD s false then
      (t.best_action_cache.getD s 0, t, { c with cache_hits := c.cache_hits + 1 })
    else
      let c := { c with cache_misses := c.cache_misses + 1 }
      let result := scanArgmax (rowOf t s) t.num_actions
      if t.has_cache then
        (result.1,
         { t with best_action_cache := t.best_action_cache.set s result.1
                  max_q_cache := t.max_q_cache.set s result.2
                  cache_valid := t.cache_valid.set s true },
         c)
      else (result.1, t, c)

/-- Embeds `calculate_cache_hit_ratio` (src/q_table_optimized.c lines
485-492): `0` with no cache accesses, otherwise
`hits / (hits + misses) * 100` — a percentage. -/
def calculate_cache_hit_ratio (c : QTablePerfCounters) : ℚ :=
  if c.cache_hits + c.cache_misses = 0 then 0
  else (c.cache_hits : ℚ) / ((c.cache_hits : ℚ) + (c.cache_misses : ℚ)) * 100

/-- One client-visible operation on an optimized Q-table: the two cached
queries and the fast scalar store. -/
inductive QTableOp where
  | getMax (state : ℤ)
  | getBest (state : ℤ)
  | setFast (state action : ℤ) (value : ℚ)
  deriving Repr, DecidableEq

/-- Small-step interpreter over table-and-counters state; `none` propagates
an out-of-allocation `set_q_value_fast` (undefined behaviour). -/
def runOp (sc : OptimizedQTable × QTablePerfCounters) (op : QTableOp) :
    Option (OptimizedQTable × QTablePerfCounters) :=
  match op with
  | .getMax s =>
    let r := get_max_q_value_cached sc.1 sc.2 s
    some (r.2.1, r.2.2)
  | .getBest s =>
    let r := get_best_action_cached sc.1 sc.2 s
    some (r.2.1, r.2.2)
  | .setFast s a v => (set_q_value_fast sc.1 s a v).map (fun t => (t, sc.2))

/-- Runs a sequence of operations left to right. -/
def runOps (sc : OptimizedQTable × QTablePerfCounters) (ops : List QTableOp) :
    Option (OptimizedQTable × QTablePerfCounters) :=
  ops.foldlM runOp sc

/-! ## Priority experience replay (src/agent.c lines 636-903)

`PriorityExperienceBuffer` mirrors the C struct: a fixed-capacity circular
array of experiences, a parallel `priorities` array, and the bookkeeping
fields.  The `heap` array is allocated but not used by the modelled
operations (`add_priority_experience`, `calculate_importance_weight`,
`update_beta`) and is omitted.

The priority formula `powf(fabsf(td_error) + min_priority, alpha)` involves
the transcendental `powf`; operations that only move priority values around
take the map `td_error ↦ priority` as an explicit function parameter
`prioFn` (for `alpha = 1`, `powf` is exact and `prioFn td = |td| + minPriority`).
Where the analytic behaviour of `powf` itself matters
(`calculate_importance_weight`) it is modelled by `Real.rpow`. -/

structure ReplayConfig where
  enabled : Bool
  buffer_size : ℤ
  batch_size : ℕ
  replay_frequency : ℤ
  priority_alpha : ℚ
  priority_beta_start : ℚ
  priority_beta_end : ℚ
  beta_anneal_steps : ℤ
  min_priority : ℚ
  deriving Repr, DecidableEq

structure PriorityExperience where
  state : ℤ
  action : ℕ
  reward : ℚ
  next_state : ℤ
  done : Bool
  td_error : ℚ
  priority : ℚ
  timestamp : ℕ
  deriving Repr, DecidableEq

structure PriorityExperienceBuffer where
  experiences : List PriorityExperience
  priorities : List ℚ
  capacity : ℕ
  size : ℕ
  current_index : ℕ
  alpha : ℚ
  beta : ℚ
  beta_increment : ℚ
  max_priority : ℚ
  min_priority : ℚ
  replay_batch_size : ℕ
  global_step : ℕ
  deriving Repr, DecidableEq

/-- Placeholder for the `malloc`-uninitialised experience slots. -/
def blankExperience : PriorityExperience :=
  { state := 0, action := 0, reward := 0, next_state := 0, done := false
    td_error := 0, priority := 0, timestamp := 0 }

/-- Successful-allocation body of `create_priority_buffer` (src/agent.c lines
739-773): `size = 0`, `current_index = 0`, `beta = betaStart`,
`beta_increment = (betaEnd - betaStart) / annealSteps`, `max_priority = 1.0`,
and every slot priority initialised to `min_priority`. -/
def mkPriorityBuffer (capacity : ℤ) (config : ReplayConfig) :
    PriorityExperienceBuffer :=
  { experiences := List.replicate capacity.toNat blankExperience
    priorities := List.replicate capacity.toNat config.min_priority
    capacity := capacity.toNat
    size := 0
    current_index := 0
    alpha := config.priority_alpha
    beta := config.priority_beta_start
    beta_increment :=
      (config.priority_beta_end - config.priority_beta_start) /
        (config.beta_anneal_steps : ℚ)
    max_priority := 1
    min_priority := config.min_priority
    replay_batch_size := config.batch_size
    global_step := 0 }

/-- Embeds `create_priority_buffer` (src/agent.c lines 739-773).  The source
performs no validation of `capacity`; its only `NULL` returns are allocation
failures, which are not modelled (allocations are assumed to succeed, as
they do on common allocators even for a zero-byte request).  A negative
`capacity` is outside the model: in C it requests an astronomically large
allocation whose failure produces `NULL`. -/
def create_priority_buffer (capacity : ℤ) (config : ReplayConfig) :
    Option PriorityExperienceBuffer :=
  some (mkPriorityBuffer capacity config)

/-- Embeds `add_priority_experience` (src/agent.c lines 786-823), with the
priority computation `powf(fabsf(td_error) + min_priority, alpha)` supplied
as `prioFn` applied to the TD error.  The slot at `current_index` is
overwritten, `max_priority` is grown when the new priority exceeds it and
otherwise rescanned over `priorities[0..size-1]` when the buffer is full
(the overwritten slot may have held the previous maximum), then
`current_index` advances modulo `capacity` and `size` saturates at
`capacity`. -/
def add_priority_experience (prioFn : ℚ → ℚ) (buffer : PriorityExperienceBuffer)
    (state : ℤ) (action : ℕ) (reward : ℚ) (next_state : ℤ) (done : Bool)
    (td_error : ℚ) : PriorityExperienceBuffer :=
  let priority := prioFn td_error
  let exp : PriorityExperience :=
    { state := state, action := action, reward := reward, next_state := next_state
      done := done, td_error := td_error, priority := priority
      timestamp := buffer.global_step }
  let experiences := buffer.experiences.set buffer.current_index exp
  let priorities := buffer.priorities.set buffer.current_index priority
  let max_priority :=
    if buffer.size = 0 ∨ priority > buffer.max_priority then priority
    else if buffer.capacity ≤ buffer.size ∧ buffer.current_index < buffer.size then
      scanMax (fun i => priorities.getD i 0) buffer.size
    else buffer.max_priority
  { buffer with
    experiences := experiences
    priorities := priorities
    global_step := buffer.global_step + 1
    max_priority := max_priority
    current_index := (buffer.current_index + 1) % buffer.capacity
    size := if buffer.size < buffer.capacity then buffer.size + 1 else buffer.size }

/-- Argument record for one `add_priority_experience` call. -/
structure AddCall where
  state : ℤ
  action : ℕ
  reward : ℚ
  next_state : ℤ
  done : Bool
  td_error : ℚ
  deriving Repr, DecidableEq

/-- Folds a sequence of `add_priority_experience` calls over a buffer. -/
def applyAdds (prioFn : ℚ → ℚ) (buffer : PriorityExperienceBuffer)
    (calls : List AddCall) : PriorityExperienceBuffer :=
  calls.foldl
    (fun b k => add_priority_experience prioFn b k.state k.action k.reward
      k.next_state k.done k.td_error) buffer

/-- Embeds `update_beta` (src/agent.c lines 837-841):
`beta = fminf(beta + beta_increment, 1.0)`. -/
def update_beta (buffer : PriorityExperienceBuffer) : PriorityExperienceBuffer :=
  { buffer with beta := min (buffer.beta + buffer.beta_increment) 1 }

/-- Embeds `calculate_importance_weight` (src/agent.c lines 826-834):
out-of-range indices return `1.0`; otherwise
`w = powf(priority / max_priority * size, -beta)`, with `powf` modelled by
`Real.rpow` on the exact rational base. -/
noncomputable def calculate_importance_weight (buffer : PriorityExperienceBuffer)
    (index : ℤ) : ℝ :=
  if index < 0 ∨ (buffer.size : ℤ) ≤ index then 1
  else
    let priority := buffer.priorities.getD index.toNat 0
    let prob := priority / buffer.max_priority
    ((prob * (buffer.size : ℚ) : ℚ) : ℝ) ^ (-(buffer.beta : ℝ))

/-! ## Invariants and concrete instances -/

/-- The max-priority invariant of the claim: `max_priority` equals the
maximum of `priorities[0..size-1]`, stated as "bounds every in-range slot
and is attained by one". -/
def MaxPriorityInv (st : PriorityExperienceBuffer) : Prop :=
  (∀ i, i < st.size → st.priorities.getD i 0 ≤ st.max_priority) ∧
  ∃ i, i < st.size ∧ st.priorities.getD i 0 = st.max_priority

instance (st : PriorityExperienceBuffer) : Decidable (MaxPriorityInv st) := by
  unfold MaxPriorityInv; infer_instance

/-- Structural facts maintained by `create_priority_buffer` and
`add_priority_experience`: the priority array spans the capacity, `size`
saturates at `capacity`, `current_index` stays in range, and while the
buffer is filling `current_index` equals `size`. -/
def BufWF (st : PriorityExperienceBuffer) : Prop :=
  st.priorities.length = st.capacity ∧ st.size ≤ st.capacity ∧
  st.current_index < st.capacity ∧ (st.size < st.capacity → st.current_index = st.size)

/-- Beta after `n` calls to `update_beta` on a fresh buffer. -/
def betaAfter (buffer : PriorityExperienceBuffer) (n : ℕ) : ℚ :=
  (update_beta^[n] buffer).beta

/-- Embeds `create_default_replay_config` (src/agent.c lines 636-649). -/
def create_default_replay_config : ReplayConfig :=
  { enabled := true
    buffer_size := 10000
    batch_size := 32
    replay_frequency := 4
    priority_alpha := 3/5
    priority_beta_start := 2/5
    priority_beta_end := 1
    beta_anneal_steps := 100000
    min_priority := 1/1000000 }

/-- Agent of the end-to-end Bellman scenario: `learningRate = 0.5`,
`discountFactor = 0.9`, `Q(1, UP) = 5.0`, every other entry `0`. -/
def c2Agent : QLearningAgent :=
  { num_states := 2
    num_actions := 4
    learning_rate := 1/2
    discount_factor := 9/10
    epsilon := 1/10
    epsilon_decay := 995/1000
    epsilon_min := 1/100
    current_state := 0
    last_action := 0
    q_table := [[0, 0, 0, 0], [5, 0, 0, 0]] }

/-- A saved table whose header dimensions (3×4) mismatch `c2Agent` (2×4). -/
def c5File : QTableFile :=
  { num_states := 3
    num_actions := 4
    learning_rate := 1/10
    discount_factor := 1/2
    epsilon := 1
    epsilon_decay := 1
    epsilon_min := 0
    table := [[1, 1, 1, 1], [1, 1, 1, 1], [1, 1, 1, 1]] }

/-- A 2-state, 2-action table with distinct entries and no reduction cache,
for exercising the unchecked fast accessors. -/
def c3Table : OptimizedQTable :=
  { data := [1, 2, 3, 4]
    num_states := 2
    num_actions := 2
    state_stride := 2
    max_q_cache := []
    best_action_cache := []
    cache_valid := []
    has_cache := false }

/-- Fresh 1-state, 2-action table with max-query caching. -/
def c1Table : OptimizedQTable := mkOptimizedQTable 1 2 true

/-- Fresh 1-state, 1-action table with max-query caching. -/
def c9Table : OptimizedQTable := mkOptimizedQTable 1 1 true

/-- Priority map for `alpha = 1`, where `powf(x, 1.0f) = x` exactly:
`priority = |tdError| + minPriority` with the default `minPriority`. -/
def c4PrioFn : ℚ → ℚ := fun td => |td| + 1/1000000

/-- Three adds into a capacity-2 buffer: the third wraps around and
overwrites slot 0, which held the running maximum, forcing the rescan. -/
def c4Calls : List AddCall :=
  [{ state := 0, action := 0, reward := 1, next_state := 1, done := false, td_error := 5 },
   { state := 1, action := 1, reward := 2, next_state := 0, done := false, td_error := 1 },
   { state := 0, action := 2, reward := 3, next_state := 1, done := true, td_error := 0 }]

/-- Configuration of the beta-annealing scenario:
`betaStart = 0.4`, `betaEnd = 1.0`, `annealSteps = 100`. -/
def c6Config : ReplayConfig :=
  { create_default_replay_config with
    priority_beta_start := 2/5
    priority_beta_end := 1
    beta_anneal_steps := 100 }

/-- Configuration with `betaEnd ≥ betaStart` but `betaStart > 1`. -/
def c6BadConfig : ReplayConfig :=
  { create_default_replay_config with
    priority_beta_start := 2
    priority_beta_end := 3
    beta_anneal_steps := 100 }

/-- State and counters after one `get_max_q_value_cached(0)` on a fresh
cached 1×1 table: one miss recorded, cache populated. -/
def c9After : OptimizedQTable × QTablePerfCounters :=
  ({ c9Table with max_q_cache := [0], cache_valid := [true] },
   { zeroCounters with total_accesses := 1, cache_misses := 1 })

/-- A two-slot buffer whose first slot has the larger priority. -/
def c7Buffer : PriorityExperienceBuffer :=
  { experiences := [blankExperience, blankExperience]
    priorities := [2, 1]
    capacity := 2
    size := 2
    current_index := 0
    alpha := 3/5
    beta := 1/2
    beta_increment := 0
    max_priority := 2
    min_priority := 1/1000000
    replay_batch_size := 32
    global_step := 2 }

/-! ## Reduction-loop lemmas -/

theorem getD_set_self {α : Type} (l : List α) (j : ℕ) (v d : α) (h : j < l.length) :
    (l.set j v).getD j d = v := by
  simp [List.getD_eq_getElem?_getD, List.getElem?_set_self h]

theorem getD_set_ne {α : Type} (l : List α) (i j : ℕ) (v d : α) (h : j ≠ i) :
    (l.set j v).getD i d = l.getD i d := by
  simp [List.getD_eq_getElem?_getD, List.getElem?_set_ne h]

theorem scanStep_init_le (f : ℕ → ℚ) (m : ℚ) (i : ℕ) : m ≤ scanStep f m i := by
  unfold scanStep
  split
  · exact le_of_lt (by assumption)
  · exact le_refl m

theorem scanStep_arg_le (f : ℕ → ℚ) (m : ℚ) (i : ℕ) : f i ≤ scanStep f m i := by
  unfold scanStep
  split
  · exact le_refl _
  · exact le_of_not_lt (by assumption)

theorem foldl_scanStep_init_le (f : ℕ → ℚ) :
    ∀ (l : List ℕ) (m : ℚ), m ≤ l.foldl (scanStep f) m := by
  intro l
  induction l with
  | nil => intro m; exact le_refl m
  | cons i l ih =>
    intro m
    rw [List.foldl_cons]
    exact le_trans (scanStep_init_le f m i) (ih _)

theorem foldl_scanStep_mem_le (f : ℕ → ℚ) :
    ∀ (l : List ℕ) (m : ℚ) (j : ℕ), j ∈ l → f j ≤ l.foldl (scanStep f) m := by
  intro l
  induction l with
  | nil => intro m j hj; cases hj
  | cons i l ih =>
    intro m j hj
    rw [List.foldl_cons]
    rcases List.mem_cons.mp hj with h | h
    · subst h
      exact le_trans (scanStep_arg_le f m j) (foldl_scanStep_init_le f l _)
    · exact ih _ j h

theorem foldl_scanStep_attained (f : ℕ → ℚ) :
    ∀ (l : List ℕ) (m : ℚ),
      l.foldl (scanStep f) m = m ∨ ∃ j ∈ l, l.foldl (scanStep f) m = f j := by
  intro l
  induction l with
  | nil => intro m; exact Or.inl rfl
  | cons i l ih =>
    intro m
    rw [List.foldl_cons]
    rcases ih (scanStep f m i) with h | ⟨j, hj, hfj⟩
    · rw [h]
      unfold scanStep
      split
      · exact Or.inr ⟨i, List.mem_cons_self i l, rfl⟩
      · exact Or.inl rfl
    · exact Or.inr ⟨j, List.mem_cons_of_mem i hj, hfj⟩

theorem scanMax_le (f : ℕ → ℚ) (n : ℕ) (i : ℕ) (hi : i < n) :
    f i ≤ scanMax f n := by
  unfold scanMax
  rcases Nat.eq_zero_or_pos i with rfl | hpos
  · exact foldl_scanStep_init_le f _ _
  · apply foldl_scanStep_mem_le
    rw [List.mem_range'_1]
    omega

theorem scanMax_attained (f : ℕ → ℚ) (n : ℕ) (hn : 1 ≤ n) :
    ∃ i, i < n ∧ scanMax f n = f i := by
  unfold scanMax
  rcases foldl_scanStep_attained f (List.range' 1 (n - 1)) (f 0) with h | ⟨j, hj, hfj⟩
  · exact ⟨0, by omega, h⟩
  · rw [List.mem_range'_1] at hj
    exact ⟨j, by omega, hfj⟩

theorem foldl_argmaxStep_fst_lt (f : ℕ → ℚ) (n : ℕ) :
    ∀ (l : List ℕ) (p : ℕ × ℚ), p.1 < n → (∀ j ∈ l, j < n) →
      (l.foldl (argmaxStep f) p).1 < n := by
  intro l
  induction l with
  | nil => intro p hp _; exact hp
  | cons i l ih =>
    intro p hp hl
    rw [List.foldl_cons]
    apply ih
    · unfold argmaxStep
      split
      · exact hl i (List.mem_cons_self i l)
      · exact hp
    · intro j hj
      exact hl j (List.mem_cons_of_mem i hj)

theorem scanArgmax_fst_lt (f : ℕ → ℚ) (n : ℕ) (hn : 1 ≤ n) :
    (scanArgmax f n).1 < n := by
  unfold scanArgmax
  apply foldl_argmaxStep_fst_lt
  · exact hn
  · intro j hj
    rw [List.mem_range'_1] at hj
    omega

/-! ## Priority-buffer invariant lemmas -/

theorem add_priorities_eq (prioFn : ℚ → ℚ) (st : PriorityExperienceBuffer)
    (state : ℤ) (action : ℕ) (reward : ℚ) (next_state : ℤ) (done : Bool)
    (td_error : ℚ) :
    (add_priority_experience prioFn st state action reward next_state done
        td_error).priorities =
      st.priorities.set st.current_index (prioFn td_error) := rfl

theorem add_size_eq (prioFn : ℚ → ℚ) (st : PriorityExperienceBuffer)
    (state : ℤ) (action : ℕ) (reward : ℚ) (next_state : ℤ) (done : Bool)
    (td_error : ℚ) :
    (add_priority_experience prioFn st state action reward next_state done
        td_error).size =
      if st.size < st.capacity then st.size + 1 else st.size := rfl

theorem add_ci_eq (prioFn : ℚ → ℚ) (st : PriorityExperienceBuffer)
    (state : ℤ) (action : ℕ) (reward : ℚ) (next_state : ℤ) (done : Bool)
    (td_error : ℚ) :
    (add_priority_experience prioFn st state action reward next_state done
        td_error).current_index =
      (st.current_index + 1) % st.capacity := rfl

theorem add_cap_eq (prioFn : ℚ → ℚ) (st : PriorityExperienceBuffer)
    (state : ℤ) (action : ℕ) (reward : ℚ) (next_state : ℤ) (done : Bool)
    (td_error : ℚ) :
    (add_priority_experience prioFn st state action reward next_state done
        td_error).capacity = st.capacity := rfl

theorem add_max_eq (prioFn : ℚ → ℚ) (st : PriorityExperienceBuffer)
    (state : ℤ) (action : ℕ) (reward : ℚ) (next_state : ℤ) (done : Bool)
    (td_error : ℚ) :
    (add_priority_experience prioFn st state action reward next_state done
        td_error).max_priority =
      (if st.size = 0 ∨ prioFn td_error > st.max_priority then prioFn td_error
       else if st.capacity ≤ st.size ∧ st.current_index < st.size then
         scanMax
           (fun i => (st.priorities.set st.current_index (prioFn td_error)).getD i 0)
           st.size
       else st.max_priority) := rfl

theorem add_preserves_inv (prioFn : ℚ → ℚ) (st : PriorityExperienceBuffer)
    (state : ℤ) (action : ℕ) (reward : ℚ) (next_state : ℤ) (done : Bool)
    (td_error : ℚ) (hwf : BufWF st) (hinv : st.size = 0 ∨ MaxPriorityInv st) :
    BufWF (add_priority_experience prioFn st state action reward next_state done
        td_error) ∧
    MaxPriorityInv (add_priority_experience prioFn st state action reward
        next_state done td_error) := by
  obtain ⟨hplen, hsz, hci, hfill⟩ := hwf
  have hcap : 1 ≤ st.capacity := by omega
  have hcil : st.current_index < st.priorities.length := by rw [hplen]; exact hci
  have hgetself :
      (st.priorities.set st.current_index (prioFn td_error)).getD
        st.current_index 0 = prioFn td_error :=
    getD_set_self _ _ _ _ hcil
  have hgetne : ∀ i, st.current_index ≠ i →
      (st.priorities.set st.current_index (prioFn td_error)).getD i 0 =
        st.priorities.getD i 0 :=
    fun i h => getD_set_ne _ _ _ _ _ h
  constructor
  · unfold BufWF
    rw [add_priorities_eq, add_size_eq, add_ci_eq, add_cap_eq]
    refine ⟨by rw [List.length_set]; exact hplen, by split <;> omega,
      Nat.mod_lt _ (by omega), ?_⟩
    intro hlt
    by_cases hc : st.size < st.capacity
    · rw [if_pos hc] at hlt ⊢
      rw [hfill hc]
      exact Nat.mod_eq_of_lt (by omega)
    · rw [if_neg hc] at hlt
      omega
  · unfold MaxPriorityInv
    rw [add_priorities_eq]
    by_cases hs0 : st.size = 0
    · -- first add: the slot written is index 0 and becomes the maximum
      have hc : st.size < st.capacity := by omega
      have hci0 : st.current_index = 0 := by rw [hfill hc]; exact hs0
      have hsize : (add_priority_experience prioFn st state action reward
          next_state done td_error).size = 1 := by
        rw [add_size_eq, if_pos hc, hs0]
      have hmax : (add_priority_experience prioFn st state action reward
          next_state done td_error).max_priority = prioFn td_error := by
        rw [add_max_eq, if_pos (Or.inl hs0)]
      rw [hsize, hmax]
      constructor
      · intro i hi
        have hie : i = 0 := by omega
        subst hie
        rw [← hci0, hgetself]
      · exact ⟨0, by omega, by rw [← hci0, hgetself]⟩
    · have hM : MaxPriorityInv st := hinv.resolve_left hs0
      obtain ⟨hub, i0, hi0, hatt⟩ := hM
      by_cases hpm : prioFn td_error > st.max_priority
      · -- growing sample: the new priority dominates everything
        have hmax : (add_priority_experience prioFn st state action reward
            next_state done td_error).max_priority = prioFn td_error := by
          rw [add_max_eq, if_pos (Or.inr hpm)]
        rw [hmax, add_size_eq]
        have hcilt : st.current_index <
            (if st.size < st.capacity then st.size + 1 else st.size) := by
          by_cases hc : st.size < st.capacity
          · rw [if_pos hc, hfill hc]; omega
          · rw [if_neg hc]; omega
        constructor
        · intro i hi
          by_cases hic : st.current_index = i
          · rw [← hic, hgetself]
          · rw [hgetne i hic]
            have hilt : i < st.size := by
              by_cases hc : st.size < st.capacity
              · rw [if_pos hc] at hi
                have hcieq : st.current_index = st.size := hfill hc
                omega
              · rw [if_neg hc] at hi
                exact hi
            exact le_of_lt (lt_of_le_of_lt (hub i hilt) hpm)
        · exact ⟨st.current_index, hcilt, hgetself⟩
      · have hout : ¬(st.size = 0 ∨ prioFn td_error > st.max_priority) := by
          push_neg
          exact ⟨hs0, not_lt.mp hpm⟩
        by_cases hfull : st.capacity ≤ st.size ∧ st.current_index < st.size
        · -- full buffer, non-growing sample: the rescan recomputes the max
          have hmax : (add_priority_experience prioFn st state action reward
              next_state done td_error).max_priority =
              scanMax (fun i =>
                (st.priorities.set st.current_index (prioFn td_error)).getD i 0)
                st.size := by
            rw [add_max_eq, if_neg hout, if_pos hfull]
          have hcnot : ¬st.size < st.capacity := by omega
          have hsize : (add_priority_experience prioFn st state action reward
              next_state done td_error).size = st.size := by
            rw [add_size_eq, if_neg hcnot]
          rw [hmax, hsize]
          obtain ⟨j, hj, hjeq⟩ := scanMax_attained
            (fun i => (st.priorities.set st.current_index (prioFn td_error)).getD i 0)
            st.size (by omega)
          exact ⟨fun i hi => scanMax_le _ _ i hi, j, hj, hjeq.symm⟩
        · -- filling buffer, non-growing sample: the old max still dominates
          have hc : st.size < st.capacity := by
            by_contra hge
            apply hfull
            constructor
            · omega
            · omega
          have hcieq : st.current_index = st.size := hfill hc
          have hmax : (add_priority_experience prioFn st state action reward
              next_state done td_error).max_priority = st.max_priority := by
            rw [add_max_eq, if_neg hout, if_neg hfull]
          have hsize : (add_priority_experience prioFn st state action reward
              next_state done td_error).size = st.size + 1 := by
            rw [add_size_eq, if_pos hc]
          rw [hmax, hsize]
          constructor
          · intro i hi
            by_cases hic : st.current_index = i
            · rw [← hic, hgetself]
              exact not_lt.mp hpm
            · rw [hgetne i hic]
              exact hub i (by omega)
          · refine ⟨i0, by omega, ?_⟩
            rw [hgetne i0 (by omega)]
            exact hatt

theorem applyAdds_wf_inv (prioFn : ℚ → ℚ) :
    ∀ (calls : List AddCall) (st : PriorityExperienceBuffer),
      BufWF st → (st.size = 0 ∨ MaxPriorityInv st) → calls ≠ [] →
      MaxPriorityInv (applyAdds prioFn st calls) := by
  intro calls
  induction calls with
  | nil => intro st _ _ hne; exact absurd rfl hne
  | cons k rest ih =>
    intro st hwf hinv _
    have hstep := add_preserves_inv prioFn st k.state k.action k.reward
      k.next_state k.done k.td_error hwf hinv
    have heq : applyAdds prioFn st (k :: rest) =
        applyAdds prioFn
          (add_priority_experience prioFn st k.state k.action k.reward
            k.next_state k.done k.td_error) rest := rfl
    rw [heq]
    rcases eq_or_ne rest [] with rfl | hne
    · exact hstep.2
    · exact ih _ hstep.1 (Or.inr hstep.2) hne

/-! ## Beta-annealing lemmas -/

theorem update_beta_beta_eq (b : PriorityExperienceBuffer) :
    (update_beta b).beta = min (b.beta + b.beta_increment) 1 := rfl

theorem iterate_update_beta_increment (b : PriorityExperienceBuffer) :
    ∀ n : ℕ, (update_beta^[n] b).beta_increment = b.beta_increment := by
  intro n
  induction n with
  | zero => rfl
  | succ n ih =>
    rw [Function.iterate_succ_apply']
    show (update_beta^[n] b).beta_increment = b.beta_increment
    exact ih

theorem betaAfter_closed (b : PriorityExperienceBuffer)
    (hinc : 0 ≤ b.beta_increment) (hb : b.beta ≤ 1) :
    ∀ n : ℕ, betaAfter b n = min (b.beta + n * b.beta_increment) 1 := by
  intro n
  induction n with
  | zero =>
    unfold betaAfter
    rw [Function.iterate_zero_apply]
    have hz : b.beta + (0 : ℕ) * b.beta_increment = b.beta := by
      push_cast
      ring
    rw [hz, min_eq_left hb]
  | succ n ih =>
    unfold betaAfter at ih ⊢
    rw [Function.iterate_succ_apply', update_beta_beta_eq,
      iterate_update_beta_increment, ih]
    rcases le_or_lt (b.beta + n * b.beta_increment) 1 with h | h
    · rw [min_eq_left h]
      congr 1
      push_cast
      ring
    · rw [min_eq_right h.le]
      have h1 : (1 : ℚ) ≤ 1 + b.beta_increment := by linarith
      have h2 : (1 : ℚ) ≤ b.beta + ((n : ℚ) + 1) * b.beta_increment := by nlinarith
      rw [min_eq_right h1]
      have h3 : b.beta + ((n : ℕ) + 1 : ℕ) * b.beta_increment =
          b.beta + ((n : ℚ) + 1) * b.beta_increment := by
        push_cast
        ring
      rw [h3, min_eq_right h2]

/-! ## Performance-counter lemmas -/

theorem runOp_counters (sc sc' : OptimizedQTable × QTablePerfCounters)
    (op : QTableOp) (h : runOp sc op = some sc')
    (hc : sc.2.cache_hits + sc.2.cache_misses = sc.2.total_accesses) :
    sc'.2.cache_hits + sc'.2.cache_misses = sc'.2.total_accesses := by
  cases op with
  | getMax s =>
    simp only [runOp, Option.some.injEq] at h
    rw [← h]
    unfold get_max_q_value_cached
    dsimp only
    repeat' split
    all_goals dsimp only
    all_goals omega
  | getBest s =>
    simp only [runOp, Option.some.injEq] at h
    rw [← h]
    unfold get_best_action_cached
    dsimp only
    repeat' split
    all_goals dsimp only
    all_goals omega
  | setFast s a v =>
    simp only [runOp] at h
    cases hset : set_q_value_fast sc.1 s a v with
    | none =>
      rw [hset] at h
      simp at h
    | some t =>
      rw [hset] at h
      simp only [Option.map_some', Option.some.injEq] at h
      rw [← h]
      exact hc

theorem runOps_counters (ops : List QTableOp) :
    ∀ (sc sc' : OptimizedQTable × QTablePerfCounters),
      runOps sc ops = some sc' →
      sc.2.cache_hits + sc.2.cache_misses = sc.2.total_accesses →
      sc'.2.cache_hits + sc'.2.cache_misses = sc'.2.total_accesses := by
  induction ops with
  | nil =>
    intro sc sc' h hc
    have hes : sc = sc' := by
      simpa [runOps, List.foldlM] using h
    rw [← hes]
    exact hc
  | cons op rest ih =>
    intro sc sc' h hc
    rw [runOps, List.foldlM_cons] at h
    cases hop : runOp sc op with
    | none =>
      rw [hop] at h
      simp at h
    | some sc1 =>
      rw [hop] at h
      simp only [Option.bind_eq_bind, Option.some_bind] at h
      exact ih sc1 sc' h (runOp_counters sc sc1 op hop hc)

/-! ## Claim theorems -/

/-- C1: the cache coherency invariant fails on the code.  On a fresh 1-state,
2-action cached table, `get_best_action_cached(0)` fills the caches
(best action 0), `set_q_value_fast(0, 1, 5.0)` invalidates, and
`get_max_q_value_cached(0)` revalidates the state while writing only
`max_q_cache`.  The final state has `cache_valid[0] = true`, the next
`get_best_action_cached(0)` returns the stale cached action `0`, yet the
exact argmax of row 0 (= `[0, 5]`) is `1`. -/
theorem C1_stale_best_action_cache :
    (runOps (c1Table, zeroCounters)
        [QTableOp.getBest 0, QTableOp.setFast 0 1 5, QTableOp.getMax 0]).map
      (fun sc =>
        (sc.1.cache_valid.getD 0 false,
         (get_best_action_cached sc.1 sc.2 0).1,
         (scanArgmax (rowOf sc.1 0) sc.1.num_actions).1)) =
      some (true, 0, 1) := by decide

/-- C2: `update_q_value` performs the plain Bellman update
`Q(s,a) += lr * (reward + (terminal ? 0 : gamma * max_a Q(s',a)) - Q(s,a))`
on every in-range triple, where the `scanMax` term is the exact row maximum
(bounded and attained), leaves every other entry unchanged, and on the
concrete scenario (`lr = 0.5`, `gamma = 0.9`, `Q(1,UP) = 5`, `reward = 10`,
`nextState = 1`, non-terminal) yields `Q(0,UP) = 7.25` exactly. -/
theorem C2_bellman_update (agent : QLearningAgent) (state action : ℤ)
    (reward : ℚ) (next_state : ℤ) (done : Bool)
    (hwf : AgentWF agent)
    (hs : 0 ≤ state ∧ state < (agent.num_states : ℤ))
    (hns : 0 ≤ next_state ∧ next_state < (agent.num_states : ℤ))
    (ha : 0 ≤ action ∧ action < (agent.num_actions : ℤ)) :
    (qEntry (update_q_value agent state action reward next_state done)
        state.toNat action.toNat =
      qEntry agent state.toNat action.toNat +
        agent.learning_rate *
          (reward +
            (if done then 0
             else agent.discount_factor *
               scanMax (fun i => qEntry agent next_state.toNat i) agent.num_actions) -
            qEntry agent state.toNat action.toNat)) ∧
    (∀ i, i < agent.num_actions →
      qEntry agent next_state.toNat i ≤
        scanMax (fun i => qEntry agent next_state.toNat i) agent.num_actions) ∧
    (∃ i, i < agent.num_actions ∧
      scanMax (fun i => qEntry agent next_state.toNat i) agent.num_actions =
        qEntry agent next_state.toNat i) ∧
    (∀ s a : ℕ, ¬(s = state.toNat ∧ a = action.toNat) →
      qEntry (update_q_value agent state action reward next_state done) s a =
        qEntry agent s a) ∧
    qEntry (update_q_value c2Agent 0 0 10 1 false) 0 0 = 29/4 := by
  obtain ⟨hlen, hrows⟩ := hwf
  obtain ⟨hs0, hs1⟩ := hs
  obtain ⟨hn0, hn1⟩ := hns
  obtain ⟨ha0, ha1⟩ := ha
  have hA : 1 ≤ agent.num_actions := by omega
  have hg : ¬(state < 0 ∨ (agent.num_states : ℤ) ≤ state ∨
      next_state < 0 ∨ (agent.num_states : ℤ) ≤ next_state ∨
      action < 0 ∨ (agent.num_actions : ℤ) ≤ action) := by
    push_neg
    omega
  have hsl : state.toNat < agent.q_table.length := by
    rw [hlen]; omega
  have hrow : (agent.q_table.getD state.toNat []).length = agent.num_actions := by
    have hmem : agent.q_table.getD state.toNat [] ∈ agent.q_table := by
      rw [List.getD_eq_getElem?_getD, List.getElem?_eq_getElem hsl]
      exact List.getElem_mem hsl
    exact hrows _ hmem
  have hal : action.toNat < (agent.q_table.getD state.toNat []).length := by
    rw [hrow]; omega
  have hupd : (update_q_value agent state action reward next_state done).q_table =
      agent.q_table.set state.toNat
        ((agent.q_table.getD state.toNat []).set action.toNat
          (qEntry agent state.toNat action.toNat +
            agent.learning_rate *
              ((reward + agent.discount_factor *
                  (if done then 0
                   else scanMax (fun i => qEntry agent next_state.toNat i)
                     agent.num_actions)) -
                qEntry agent state.toNat action.toNat))) := by
    unfold update_q_value
    rw [if_neg hg]
  refine ⟨?_, ?_, ?_, ?_, by
    norm_num [qEntry, update_q_value, c2Agent, scanMax, scanStep, List.range',
      List.foldl_cons, List.foldl_nil]⟩
  · unfold qEntry
    rw [hupd, getD_set_self _ _ _ _ hsl, getD_set_self _ _ _ _ hal]
    cases done <;> simp [qEntry]
  · intro i hi
    exact scanMax_le _ _ i hi
  · exact scanMax_attained _ _ hA
  · intro s a hne
    unfold qEntry
    rw [hupd]
    by_cases hss : s = state.toNat
    · subst hss
      have haa : a ≠ action.toNat := by tauto
      rw [getD_set_self _ _ _ _ hsl, getD_set_ne _ _ _ _ _ (Ne.symm haa)]
    · rw [getD_set_ne _ _ _ _ _ (fun h => hss h.symm)]

/-- C2 witness: the theorem applied at the concrete Bellman scenario. -/
theorem C2_bellman_update_witness :
    qEntry (update_q_value c2Agent 0 0 10 1 false) 0 0 = 29/4 :=
  (C2_bellman_update c2Agent 0 0 10 1 false (by decide) (by decide) (by decide)
    (by decide)).2.2.2.2

/-- C3 counterexample: on a 2-state, 2-action table the pair `(0, 2)` is out
of range (`action ≥ num_actions`), yet `get_q_value_fast` returns entry
`(1, 0)` (value `3`, not `0.0`) and `set_q_value_fast` overwrites that other
row's entry instead of being a no-op: the fast accessors do not bounds-check. -/
theorem C3_fast_accessors_unchecked :
    (c3Table.num_actions : ℤ) ≤ 2 ∧
    get_q_value_fast c3Table 0 2 = some 3 ∧ (3 : ℚ) ≠ 0 ∧
    (set_q_value_fast c3Table 0 2 99).map (fun t => t.data) = some [1, 2, 99, 4] ∧
    c3Table.data = [1, 2, 3, 4] := by decide

/-- C3 (amended): the bounds policy holds for the agent-level scalar
operations `get_q_value` / `set_q_value`: every out-of-range state/action
pair makes `set_q_value` a no-op on the whole agent and makes `get_q_value`
return `0.0`. -/
theorem C3_agent_bounds_policy (agent : QLearningAgent) (state action : ℤ)
    (value : ℚ) (h : oobSA agent state action) :
    get_q_value agent state action = 0 ∧
    set_q_value agent state action value = agent := by
  unfold get_q_value set_q_value
  rw [if_pos h, if_pos h]
  exact ⟨rfl, rfl⟩

/-- C3 witness: the amended theorem at a negative state index. -/
theorem C3_agent_bounds_policy_witness :
    get_q_value c2Agent (-1) 0 = 0 ∧ set_q_value c2Agent (-1) 0 7 = c2Agent :=
  C3_agent_bounds_policy c2Agent (-1) 0 7 (by decide)

/-- C5: `load_q_table` rejects a file whose header dimensions differ from
the live agent: it returns `false` and the agent — Q-table and all learning
parameters — is unchanged. -/
theorem C5_load_rejects_dimension_mismatch (agent : QLearningAgent)
    (file : QTableFile)
    (h : file.num_states ≠ agent.num_states ∨ file.num_actions ≠ agent.num_actions) :
    (load_q_table agent file).1 = false ∧ (load_q_table agent file).2 = agent := by
  unfold load_q_table
  rw [if_pos h]
  exact ⟨rfl, rfl⟩

/-- C5 witness: a 3×4 file against the 2×4 agent. -/
theorem C5_load_rejects_dimension_mismatch_witness :
    (load_q_table c2Agent c5File).1 = false ∧
    (load_q_table c2Agent c5File).2 = c2Agent :=
  C5_load_rejects_dimension_mismatch c2Agent c5File (by decide)

/-- C8 counterexample: `create_priority_buffer` performs no capacity
validation; at `capacity = 0` (allocations succeeding) it returns a non-null
buffer of capacity `0` rather than a creation failure. -/
theorem C8_zero_capacity_not_rejected :
    (create_priority_buffer 0 create_default_replay_config).isSome = true ∧
    (create_priority_buffer 0 create_default_replay_config).map
      (fun b => (b.capacity, b.size)) = some (0, 0) := by decide

/-- C8 (amended): for every non-negative capacity, creation succeeds
(allocation failures aside) and initialises the buffer exactly as the source
does: `size = 0`, `current_index = 0`, `beta = betaStart`,
`max_priority = 1.0`, and all slot priorities set to `minPriority`. -/
theorem C8_create_initializes (capacity : ℤ) (config : ReplayConfig)
    (h : 0 ≤ capacity) :
    create_priority_buffer capacity config = some (mkPriorityBuffer capacity config) ∧
    (mkPriorityBuffer capacity config).capacity = capacity.toNat ∧
    (mkPriorityBuffer capacity config).size = 0 ∧
    (mkPriorityBuffer capacity config).current_index = 0 ∧
    (mkPriorityBuffer capacity config).beta = config.priority_beta_start ∧
    (mkPriorityBuffer capacity config).max_priority = 1 ∧
    (mkPriorityBuffer capacity config).priorities =
      List.replicate capacity.toNat config.min_priority :=
  ⟨rfl, rfl, rfl, rfl, rfl, rfl, rfl⟩

/-- C8 witness: the amended theorem at capacity 5. -/
theorem C8_create_initializes_witness :
    create_priority_buffer 5 create_default_replay_config =
      some (mkPriorityBuffer 5 create_default_replay_config) ∧
    (mkPriorityBuffer 5 create_default_replay_config).size = 0 :=
  ⟨(C8_create_initializes 5 create_default_replay_config (by decide)).1,
   (C8_create_initializes 5 create_default_replay_config (by decide)).2.2.1⟩

/-- C9 counterexample: two `get_max_q_value_cached` queries on a fresh cached
table record one miss then one hit, and `calculate_cache_hit_ratio` reports
`50` (a percentage), not `hits / (hits + misses) = 1/2` as claimed. -/
theorem C9_ratio_is_percentage :
    (runOps (c9Table, zeroCounters) [QTableOp.getMax 0, QTableOp.getMax 0]).map
      (fun sc => (sc.2.cache_hits, sc.2.cache_misses,
        calculate_cache_hit_ratio sc.2)) = some (1, 1, 50) ∧
    (50 : ℚ) ≠ 1 / (1 + 1) := by
  constructor
  · norm_num [runOps, runOp, c9Table, mkOptimizedQTable, zeroCounters,
      get_max_q_value_cached, scanMax, scanStep, List.range', rowOf,
      calculate_cache_hit_ratio, List.foldl_cons, List.foldl_nil, List.replicate,
      List.foldlM]
  · norm_num

/-- C4: max-priority tracking.  For every freshly created buffer (capacity
≥ 1) and every non-empty sequence of `add_priority_experience` calls — the
priority computation `powf(|tdError| + minPriority, alpha)` abstracted as an
arbitrary map `prioFn` of the TD error — the resulting `max_priority` equals
the maximum of `priorities[0..size-1]`: it bounds every in-range slot and is
attained by one.  Since `calls` is arbitrary, instantiating it with each
prefix of a longer sequence gives the invariant after every single add, both
while filling and after wraparound overwrite. -/
theorem C4_max_priority_tracking (capacity : ℤ) (config : ReplayConfig)
    (prioFn : ℚ → ℚ) (calls : List AddCall) (hcap : 1 ≤ capacity)
    (hne : calls ≠ []) :
    MaxPriorityInv (applyAdds prioFn (mkPriorityBuffer capacity config) calls) := by
  apply applyAdds_wf_inv
  · refine ⟨?_, ?_, ?_, ?_⟩
    · show (List.replicate capacity.toNat config.min_priority).length = capacity.toNat
      exact List.length_replicate _ _
    · exact Nat.zero_le _
    · show 0 < capacity.toNat
      omega
    · intro _
      rfl
  · exact Or.inl rfl
  · exact hne

/-- C4 witness: capacity 2 with `alpha = 1` priorities (`|td| + minPriority`)
and three adds; the third wraps around and evicts the slot holding the
previous maximum. -/
theorem C4_max_priority_tracking_witness :
    (1 : ℤ) ≤ 2 ∧ c4Calls ≠ [] ∧
    MaxPriorityInv
      (applyAdds c4PrioFn (mkPriorityBuffer 2 create_default_replay_config)
        c4Calls) :=
  ⟨by decide, by decide,
   C4_max_priority_tracking 2 create_default_replay_config c4PrioFn c4Calls
     (by decide) (by decide)⟩

/-- C6 counterexample: with `betaEnd = 3 ≥ betaStart = 2` (satisfying the
claim's only hypothesis), beta starts at `2`, which already exceeds `1.0`,
and the first `update_beta` call clamps it down to `1`, so the sequence is
not non-decreasing either. -/
theorem C6_beta_start_above_one :
    c6BadConfig.priority_beta_start ≤ c6BadConfig.priority_beta_end ∧
    (mkPriorityBuffer 10 c6BadConfig).beta = 2 ∧
    1 < (mkPriorityBuffer 10 c6BadConfig).beta ∧
    (update_beta (mkPriorityBuffer 10 c6BadConfig)).beta <
      (mkPriorityBuffer 10 c6BadConfig).beta := by
  norm_num [update_beta, mkPriorityBuffer, c6BadConfig, create_default_replay_config]

/-- C6 (amended): for every buffer created with `betaEnd ≥ betaStart`,
`betaStart ≤ 1` and `annealSteps > 0`, beta starts at `betaStart`, the
post-call values `min(beta + (betaEnd - betaStart)/annealSteps, 1.0)` are
non-decreasing and never exceed `1.0`; and in the concrete scenario
(`betaStart = 0.4`, `betaEnd = 1.0`, `annealSteps = 100`) beta is exactly
`0.7` after 50 calls and exactly `1.0` after 150 calls. -/
theorem C6_beta_annealing (capacity : ℤ) (config : ReplayConfig)
    (hse : config.priority_beta_start ≤ config.priority_beta_end)
    (hs1 : config.priority_beta_start ≤ 1)
    (hn : 0 < config.beta_anneal_steps) :
    betaAfter (mkPriorityBuffer capacity config) 0 = config.priority_beta_start ∧
    (∀ n : ℕ, betaAfter (mkPriorityBuffer capacity config) n ≤
      betaAfter (mkPriorityBuffer capacity config) (n + 1)) ∧
    (∀ n : ℕ, betaAfter (mkPriorityBuffer capacity config) n ≤ 1) ∧
    betaAfter (mkPriorityBuffer 10 c6Config) 50 = 7/10 ∧
    betaAfter (mkPriorityBuffer 10 c6Config) 150 = 1 := by
  have hbeta : (mkPriorityBuffer capacity config).beta =
      config.priority_beta_start := rfl
  have hincdef : (mkPriorityBuffer capacity config).beta_increment =
      (config.priority_beta_end - config.priority_beta_start) /
        (config.beta_anneal_steps : ℚ) := rfl
  have hinc : 0 ≤ (mkPriorityBuffer capacity config).beta_increment := by
    rw [hincdef]
    apply div_nonneg
    · linarith
    · exact_mod_cast hn.le
  have hb1 : (mkPriorityBuffer capacity config).beta ≤ 1 := hs1
  have hcf := betaAfter_closed (mkPriorityBuffer capacity config) hinc hb1
  have hc6b : (mkPriorityBuffer 10 c6Config).beta = 2/5 := rfl
  have hc6inc : (mkPriorityBuffer 10 c6Config).beta_increment = 3/500 := by
    show ((1 : ℚ) - 2/5) / ((100 : ℤ) : ℚ) = 3/500
    norm_num
  have hcf6 := betaAfter_closed (mkPriorityBuffer 10 c6Config)
    (by rw [hc6inc]; norm_num) (by rw [hc6b]; norm_num)
  refine ⟨rfl, ?_, ?_, ?_, ?_⟩
  · intro n
    rw [hcf n, hcf (n + 1)]
    apply min_le_min _ le_rfl
    have hcast : ((n : ℚ)) ≤ ((n + 1 : ℕ) : ℚ) := by
      push_cast
      linarith
    nlinarith [hinc, hcast]
  · intro n
    rw [hcf n]
    exact min_le_right _ _
  · rw [hcf6 50, hc6b, hc6inc]
    norm_num
  · rw [hcf6 150, hc6b, hc6inc]
    norm_num

/-- C6 witness: the amended theorem at the concrete scenario configuration,
instantiated at one annealing step. -/
theorem C6_beta_annealing_witness :
    betaAfter (mkPriorityBuffer 10 c6Config) 0 = c6Config.priority_beta_start ∧
    betaAfter (mkPriorityBuffer 10 c6Config) 0 ≤
      betaAfter (mkPriorityBuffer 10 c6Config) 1 ∧
    betaAfter (mkPriorityBuffer 10 c6Config) 50 = 7/10 ∧
    betaAfter (mkPriorityBuffer 10 c6Config) 150 = 1 :=
  ⟨(C6_beta_annealing 10 c6Config (by norm_num [c6Config,
      create_default_replay_config]) (by norm_num [c6Config,
      create_default_replay_config]) (by decide)).1,
   (C6_beta_annealing 10 c6Config (by norm_num [c6Config,
      create_default_replay_config]) (by norm_num [c6Config,
      create_default_replay_config]) (by decide)).2.1 0,
   (C6_beta_annealing 10 c6Config (by norm_num [c6Config,
      create_default_replay_config]) (by norm_num [c6Config,
      create_default_replay_config]) (by decide)).2.2.2.1,
   (C6_beta_annealing 10 c6Config (by norm_num [c6Config,
      create_default_replay_config]) (by norm_num [c6Config,
      create_default_replay_config]) (by decide)).2.2.2.2⟩

/-- C7: importance-weight anti-monotonicity.  For any buffer with
`beta ≥ 0`, positive `max_priority`, and two in-range slots whose priorities
satisfy `p1 > p2 > 0`, the weight `(p/maxPriority * size)^(-beta)` computed
for the higher-priority slot is at most the weight for the lower-priority
slot. -/
theorem C7_importance_weight_antitone (buffer : PriorityExperienceBuffer)
    (i1 i2 : ℤ) (h10 : 0 ≤ i1) (h1s : i1 < (buffer.size : ℤ))
    (h20 : 0 ≤ i2) (h2s : i2 < (buffer.size : ℤ))
    (hbeta : 0 ≤ buffer.beta) (hmax : 0 < buffer.max_priority)
    (hp2 : 0 < buffer.priorities.getD i2.toNat 0)
    (hp12 : buffer.priorities.getD i2.toNat 0 <
      buffer.priorities.getD i1.toNat 0) :
    calculate_importance_weight buffer i1 ≤
      calculate_importance_weight buffer i2 := by
  unfold calculate_importance_weight
  rw [if_neg (by omega), if_neg (by omega)]
  dsimp only
  have hsz : 0 < buffer.size := by omega
  have hszq : (0 : ℚ) < (buffer.size : ℚ) := by exact_mod_cast hsz
  have hb2 : (0 : ℚ) <
      buffer.priorities.getD i2.toNat 0 / buffer.max_priority * buffer.size :=
    mul_pos (div_pos hp2 hmax) hszq
  have hb12 : buffer.priorities.getD i2.toNat 0 / buffer.max_priority *
        buffer.size ≤
      buffer.priorities.getD i1.toNat 0 / buffer.max_priority * buffer.size := by
    apply mul_le_mul_of_nonneg_right _ hszq.le
    exact (div_le_div_iff_of_pos_right hmax).mpr hp12.le
  have hcast2 : (0 : ℝ) <
      ((buffer.priorities.getD i2.toNat 0 / buffer.max_priority *
        buffer.size : ℚ) : ℝ) := by exact_mod_cast hb2
  have hcast12 : ((buffer.priorities.getD i2.toNat 0 / buffer.max_priority *
        buffer.size : ℚ) : ℝ) ≤
      ((buffer.priorities.getD i1.toNat 0 / buffer.max_priority *
        buffer.size : ℚ) : ℝ) := by exact_mod_cast hb12
  have hz : -(buffer.beta : ℝ) ≤ 0 := by
    rw [neg_nonpos]
    exact_mod_cast hbeta
  exact Real.rpow_le_rpow_of_nonpos hcast2 hcast12 hz

/-- C7 witness: the two-slot buffer with priorities `2 > 1 > 0`,
`maxPriority = 2`, `size = 2`, `beta = 1/2`. -/
theorem C7_importance_weight_antitone_witness :
    calculate_importance_weight c7Buffer 0 ≤ calculate_importance_weight c7Buffer 1 :=
  C7_importance_weight_antitone c7Buffer 0 1 (by decide) (by decide) (by decide)
    (by decide) (by norm_num [c7Buffer]) (by norm_num [c7Buffer])
    (by norm_num [c7Buffer]) (by norm_num [c7Buffer])

/-- C9 (amended): along every run of cached queries and fast stores from
zeroed counters, the hit and miss counters partition the query count
(`hits + misses = total_accesses`), and the reported hit ratio is the
percentage `100 * hits / (hits + misses)`, `0` when no cache accesses have
occurred. -/
theorem C9_hit_ratio_formula (t : OptimizedQTable) (ops : List QTableOp)
    (sc' : OptimizedQTable × QTablePerfCounters)
    (h : runOps (t, zeroCounters) ops = some sc') :
    sc'.2.cache_hits + sc'.2.cache_misses = sc'.2.total_accesses ∧
    calculate_cache_hit_ratio sc'.2 =
      (if sc'.2.cache_hits + sc'.2.cache_misses = 0 then 0
       else 100 * (sc'.2.cache_hits : ℚ) /
         ((sc'.2.cache_hits : ℚ) + (sc'.2.cache_misses : ℚ))) := by
  constructor
  · exact runOps_counters ops _ _ h rfl
  · unfold calculate_cache_hit_ratio
    split
    · rfl
    · ring

/-- C9 witness: one miss on a fresh 1×1 cached table. -/
theorem C9_hit_ratio_formula_witness :
    c9After.2.cache_hits + c9After.2.cache_misses = c9After.2.total_accesses ∧
    calculate_cache_hit_ratio c9After.2 =
      (if c9After.2.cache_hits + c9After.2.cache_misses = 0 then 0
       else 100 * (c9After.2.cache_hits : ℚ) /
         ((c9After.2.cache_hits : ℚ) + (c9After.2.cache_misses : ℚ))) :=
  C9_hit_ratio_formula c9Table [QTableOp.getMax 0] c9After (by decide)

/-- C10: action selection never yields an out-of-range action: a null agent
returns `ACTION_UP = 0` from both `select_action` and
`select_greedy_action`; for an agent with at least one action both return a
value below `num_actions`, and an out-of-range state returns `0`. -/
theorem C10_selected_action_in_range (agent : Option QLearningAgent)
    (state : ℤ) (randv : ℚ) (randn : ℕ) :
    (select_action none state randv randn = 0 ∧
      select_greedy_action none state = 0) ∧
    ∀ a : QLearningAgent, agent = some a → 1 ≤ a.num_actions →
      select_action agent state randv randn < a.num_actions ∧
      select_greedy_action agent state < a.num_actions ∧
      ((state < 0 ∨ (a.num_states : ℤ) ≤ state) →
        select_action agent state randv randn = 0 ∧
        select_greedy_action agent state = 0) := by
  refine ⟨⟨rfl, rfl⟩, ?_⟩
  rintro a rfl hA
  have hgreedy : select_greedy_action (some a) state < a.num_actions := by
    simp only [select_greedy_action]
    split
    · omega
    · exact scanArgmax_fst_lt _ _ hA
  refine ⟨?_, hgreedy, ?_⟩
  · simp only [select_action]
    split
    · omega
    · split
      · exact Nat.mod_lt _ (by omega)
      · exact hgreedy
  · intro hoob
    constructor
    · simp only [select_action]
      rw [if_pos hoob]
    · simp only [select_greedy_action]
      rw [if_pos hoob]

/-- C10 witness: the theorem at the concrete 2×4 agent, in-range state 0,
exploration draw 7. -/
theorem C10_selected_action_in_range_witness :
    select_action (some c2Agent) 0 1 7 < c2Agent.num_actions ∧
    select_greedy_action (some c2Agent) 0 < c2Agent.num_actions :=
  ⟨((C10_selected_action_in_range (some c2Agent) 0 1 7).2 c2Agent rfl
      (by decide)).1,
   ((C10_selected_action_in_range (some c2Agent) 0 1 7).2 c2Agent rfl
      (by decide)).2.1⟩

end RLSim

